import Mathlib

/-!
# Verification of the GitHub-Stats history/forecast engine

Shallow embedding of the history-store, backfill, trend-projection and
milestone logic of `generate_images.py` (repository `GitHub-Stats`).

Modelling conventions:
* Python snapshot dicts become the `Snapshot` structure; a field that may be
  absent in a dict (`snap.get(key, default)`) is modelled by the field holding
  the default value.
* Python ints are `Int` (for line counts, which the backfill can compute from
  arbitrary weekly integers) or `Nat` (for counts the data model makes
  non-negative: stars, forks, repos, contributions).
* Python float arithmetic (`0.10`, slope computation) is modelled with exact
  rationals `ℚ`.
* Python `sorted(..., key=lambda s: s.get("date", ""))` (a stable sort by the
  date string) is modelled with `List.insertionSort` on the date order, which
  is also stable; all content-level statements are made up to permutation,
  where the choice of stable sorting algorithm is irrelevant.
* Python dicts become association lists `List (key × value)`.
-/

/-- One entry of the `languages` mapping of a snapshot:
`{"size": ..., "prop": ..., "color": ...}`. -/
structure LangData where
  size : Nat := 0
  prop : ℚ := 0
  color : Option String := none
deriving DecidableEq

/-- One point-in-time record of `history.json` (`build_snapshot` in
`github_stats.py` plus the extra fields written by `backfill_from_api_data`).
Fields default to the value Python's `dict.get` default supplies when the key
is absent. -/
structure Snapshot where
  date : String := ""
  stargazers : Nat := 0
  forks : Nat := 0
  repo_count : Nat := 0
  total_contributions : Nat := 0
  lines_added : Int := 0
  lines_deleted : Int := 0
  languages : List (String × LangData) := []
  contributions_by_year : List (String × Nat) := []
  lines_changed_by_week : List (String × List Int) := []
  synthetic : Bool := false
  lines_added_month : Int := 0
  lines_deleted_month : Int := 0
deriving DecidableEq

/-- The sort key used throughout `generate_images.py`:
`key=lambda s: s.get("date", "")` (lexicographic string comparison). -/
def dateLe (a b : Snapshot) : Prop := a.date ≤ b.date

instance : DecidableRel dateLe := fun a b => inferInstanceAs (Decidable (a.date ≤ b.date))

instance : IsTotal Snapshot dateLe := ⟨fun a b => le_total a.date b.date⟩

instance : IsTrans Snapshot dateLe := ⟨fun _ _ _ h1 h2 => le_trans h1 h2⟩

/-- `history.sort(key=lambda snap: snap.get("date", ""))` /
`sorted(data, key=lambda s: s.get("date", ""))`: stable sort by date. -/
def sortByDate (h : List Snapshot) : List Snapshot := List.insertionSort dateLe h

theorem sortByDate_perm (h : List Snapshot) : (sortByDate h).Perm h :=
  List.perm_insertionSort dateLe h

theorem sortByDate_sorted (h : List Snapshot) : (sortByDate h).Sorted dateLe :=
  List.sorted_insertionSort dateLe h

/-! ## SnapshotStore validation (`validate_snapshot`, lines 64–94) -/

/-- `SUSPICIOUS_DROP_THRESHOLD = 50000` (absolute line count drop threshold). -/
def SUSPICIOUS_DROP_THRESHOLD : Int := 50000

/-- `SUSPICIOUS_DROP_PERCENTAGE = 0.10` (relative drop threshold, 10%). -/
def SUSPICIOUS_DROP_PERCENTAGE : ℚ := 0.10

/-- `validate_snapshot(current, previous)`: returns `(is_valid, reason)`.
`previous` is `None` (here `none`) when there is no previous snapshot.
Python's float division `diff / prev_lines` is modelled by exact rational
division. The dynamic number formatting inside the rejection message is not
reproduced; claims only concern the boolean and the static message text. -/
def validate_snapshot (current : Snapshot) (previous : Option Snapshot) :
    Bool × String :=
  match previous with
  | none => (true, "No previous snapshot to compare")
  | some prev =>
    let curr_lines : Int := current.lines_added + current.lines_deleted
    let prev_lines : Int := prev.lines_added + prev.lines_deleted
    if curr_lines < prev_lines then
      let diff : Int := prev_lines - curr_lines
      if diff > SUSPICIOUS_DROP_THRESHOLD ∨
          (prev_lines > 0 ∧ (diff : ℚ) / (prev_lines : ℚ) > SUSPICIOUS_DROP_PERCENTAGE) then
        (false, "Suspicious drop in line count")
      else
        (true, "Validation passed")
    else
      (true, "Validation passed")

theorem drop_percentage_eq : SUSPICIOUS_DROP_PERCENTAGE = 1/10 := by
  norm_num [SUSPICIOUS_DROP_PERCENTAGE]

/-- Full characterization of when `validate_snapshot` rejects a candidate that
has a previous snapshot to compare against. -/
theorem validate_snapshot_false_iff (c p : Snapshot) :
    (validate_snapshot c (some p)).1 = false ↔
      (c.lines_added + c.lines_deleted < p.lines_added + p.lines_deleted ∧
        (p.lines_added + p.lines_deleted - (c.lines_added + c.lines_deleted) > 50000 ∨
          (p.lines_added + p.lines_deleted > 0 ∧
            (((p.lines_added + p.lines_deleted - (c.lines_added + c.lines_deleted)) : Int) : ℚ) /
              (((p.lines_added + p.lines_deleted) : Int) : ℚ) > 1/10))) := by
  simp only [validate_snapshot, SUSPICIOUS_DROP_THRESHOLD, drop_percentage_eq]
  split
  case isTrue h =>
    split
    case isTrue h2 => exact iff_of_true rfl ⟨h, h2⟩
    case isFalse h2 => exact iff_of_false (by simp) (fun hc => h2 hc.2)
  case isFalse h => exact iff_of_false (by simp) (fun hc => h hc.1)

/-- CLAIM C1.  The upsert validation decision rule: with `curr` the candidate's
`lines_added + lines_deleted` and `prev` the previous snapshot's same sum,
(1) no previous snapshot ⇒ accept; (2) `curr ≥ prev` ⇒ accept;
(3) `curr < prev` ⇒ reject iff `prev - curr > 50000` or
(`prev > 0` and `(prev - curr)/prev > 0.10`); (4) `prev = 100000, curr = 40000`
is rejected; (5) `prev = 100000, curr = 95000` (diff exactly 5000 = 5%)
is accepted. -/
theorem c1_validation_rule :
    (∀ c : Snapshot, (validate_snapshot c none).1 = true) ∧
    (∀ c p : Snapshot,
      p.lines_added + p.lines_deleted ≤ c.lines_added + c.lines_deleted →
      (validate_snapshot c (some p)).1 = true) ∧
    (∀ c p : Snapshot,
      c.lines_added + c.lines_deleted < p.lines_added + p.lines_deleted →
      ((validate_snapshot c (some p)).1 = false ↔
        (p.lines_added + p.lines_deleted - (c.lines_added + c.lines_deleted) > 50000 ∨
          (p.lines_added + p.lines_deleted > 0 ∧
            (((p.lines_added + p.lines_deleted - (c.lines_added + c.lines_deleted)) : Int) : ℚ) /
              (((p.lines_added + p.lines_deleted) : Int) : ℚ) > 1/10)))) ∧
    ((validate_snapshot { lines_added := 40000 } (some { lines_added := 100000 })).1
      = false) ∧
    ((validate_snapshot { lines_added := 95000 } (some { lines_added := 100000 })).1
      = true) := by
  refine ⟨fun c => rfl, fun c p hle => ?_, fun c p hlt => ?_, ?_, ?_⟩
  · rcases Bool.eq_false_or_eq_true (validate_snapshot c (some p)).1 with ht | hf
    · exact ht
    · rw [validate_snapshot_false_iff] at hf
      exact absurd hf.1 (not_lt.mpr hle)
  · rw [validate_snapshot_false_iff]
    exact ⟨fun h2 => h2.2, fun h2 => ⟨hlt, h2⟩⟩
  · rw [validate_snapshot_false_iff]
    norm_num
  · rcases Bool.eq_false_or_eq_true
        (validate_snapshot { lines_added := 95000 }
          (some { lines_added := 100000 })).1 with ht | hf
    · exact ht
    · rw [validate_snapshot_false_iff] at hf
      norm_num at hf

/-- Witness for C1: instantiates the hypothetical conjuncts at concrete
snapshots (`curr ≥ prev` acceptance at 100000 vs 100000, and the rejection
characterization at 40000 vs 100000). -/
theorem c1_validation_rule_witness :
    (validate_snapshot { lines_added := 100000 } (some { lines_added := 100000 })).1
        = true ∧
    ((validate_snapshot { lines_added := 40000 } (some { lines_added := 100000 })).1
        = false ↔
      ((100000 : Int) + 0 - (40000 + 0) > 50000 ∨
        ((100000 : Int) + 0 > 0 ∧
          ((((100000 : Int) + 0 - (40000 + 0)) : Int) : ℚ) /
            ((((100000 : Int) + 0) : Int) : ℚ) > 1/10))) := by
  constructor
  · exact c1_validation_rule.2.1 { lines_added := 100000 } { lines_added := 100000 }
      (by norm_num)
  · exact c1_validation_rule.2.2.1 { lines_added := 40000 } { lines_added := 100000 }
      (by norm_num)

/-! ## The upsert step of `generate_history` (lines 267–291) -/

/-- `previous_snapshots = [snap for snap in history if snap.get("date") != today]`,
`previous_snapshot = previous_snapshots[-1] if previous_snapshots else None`. -/
def previousSnapshot (history : List Snapshot) (today : String) : Option Snapshot :=
  (history.filter (fun snap => decide (snap.date ≠ today))).getLast?

/-- The snapshot-appending step of `generate_history` (lines 267–291): validate
the current snapshot against the most recent different-date snapshot; if valid,
remove any snapshot with today's date and append the current one; either way,
sort by date afterwards.  The rejected branch only prints warnings and leaves
the list untouched; the run then proceeds to save and chart generation. -/
def applyCurrentSnapshot (history : List Snapshot) (current : Snapshot) :
    List Snapshot :=
  sortByDate
    (if (validate_snapshot current (previousSnapshot history current.date)).1 then
      (history.filter (fun snap => decide (snap.date ≠ current.date))) ++ [current]
    else
      history)

/-- CLAIM C2.  When validation rejects the candidate, the history is unchanged
in content: the saved state is exactly the prior snapshots sorted by date (a
permutation of the prior history — nothing removed, replaced or appended).
The step is a total function, so the run continues past the rejection. -/
theorem c2_rejected_leaves_history_unchanged
    (history : List Snapshot) (current : Snapshot)
    (hrej : (validate_snapshot current (previousSnapshot history current.date)).1
      = false) :
    applyCurrentSnapshot history current = sortByDate history ∧
    (applyCurrentSnapshot history current).Perm history := by
  have hstep : applyCurrentSnapshot history current = sortByDate history := by
    unfold applyCurrentSnapshot
    rw [hrej]
    rfl
  exact ⟨hstep, hstep ▸ sortByDate_perm history⟩

/-- Witness for C2: a history holding one snapshot with 100000 added lines and
a candidate with only 40000 — rejected, and the store keeps the old snapshot. -/
theorem c2_rejected_leaves_history_unchanged_witness :
    (validate_snapshot { date := "2024-02-01", lines_added := 40000 }
        (previousSnapshot [{ date := "2024-01-01", lines_added := 100000 }]
          "2024-02-01")).1 = false ∧
    applyCurrentSnapshot [{ date := "2024-01-01", lines_added := 100000 }]
        { date := "2024-02-01", lines_added := 40000 }
      = sortByDate [{ date := "2024-01-01", lines_added := 100000 }] ∧
    (applyCurrentSnapshot [{ date := "2024-01-01", lines_added := 100000 }]
        { date := "2024-02-01", lines_added := 40000 }).Perm
      [{ date := "2024-01-01", lines_added := 100000 }] := by
  have hprev : previousSnapshot [{ date := "2024-01-01", lines_added := 100000 }]
      "2024-02-01" = some { date := "2024-01-01", lines_added := 100000 } := by
    decide
  have hrej : (validate_snapshot { date := "2024-02-01", lines_added := 40000 }
      (previousSnapshot [{ date := "2024-01-01", lines_added := 100000 }]
        "2024-02-01")).1 = false := by
    rw [hprev, validate_snapshot_false_iff]
    norm_num
  exact ⟨hrej, c2_rejected_leaves_history_unchanged _ _ hrej⟩

theorem filter_append_perm_of_sortByDate (h : List Snapshot) (today : String) :
    ((sortByDate h).filter (fun snap => decide (snap.date ≠ today))).Perm
      (h.filter (fun snap => decide (snap.date ≠ today))) :=
  List.Perm.filter _ (sortByDate_perm h)

/-- CLAIM C3.  Upsert idempotence: if the candidate is accepted by validation,
performing the upsert step twice with the identical snapshot yields the same
history content (as a multiset) as performing it once. -/
theorem c3_upsert_idempotent
    (history : List Snapshot) (current : Snapshot)
    (hacc : (validate_snapshot current (previousSnapshot history current.date)).1
      = true) :
    (applyCurrentSnapshot (applyCurrentSnapshot history current) current).Perm
      (applyCurrentSnapshot history current) := by
  have hone : applyCurrentSnapshot history current
      = sortByDate
          ((history.filter (fun snap => decide (snap.date ≠ current.date)))
            ++ [current]) := by
    unfold applyCurrentSnapshot
    rw [hacc]
    rfl
  generalize hh1 : applyCurrentSnapshot history current = h1 at hone ⊢
  -- content of the once-upserted history, with today's snapshots filtered away
  have hfilter_once : (h1.filter
        (fun snap => decide (snap.date ≠ current.date))).Perm
      (history.filter (fun snap => decide (snap.date ≠ current.date))) := by
    rw [hone]
    refine ((List.Perm.filter _ (sortByDate_perm _)).trans ?_)
    rw [List.filter_append]
    have hcur : [current].filter (fun snap => decide (snap.date ≠ current.date))
        = [] := by simp
    rw [hcur, List.append_nil, List.filter_filter]
    simp
  rcases Bool.eq_false_or_eq_true
      (validate_snapshot current (previousSnapshot h1 current.date)).1 with h2 | h2
  · -- accepted again: result is filter ++ [current] again, same content
    have hstep : applyCurrentSnapshot h1 current
        = sortByDate
            ((h1.filter (fun snap => decide (snap.date ≠ current.date)))
              ++ [current]) := by
      unfold applyCurrentSnapshot
      rw [h2]
      rfl
    rw [hstep]
    refine (sortByDate_perm _).trans ?_
    refine (hfilter_once.append (List.Perm.refl [current])).trans ?_
    rw [hone]
    exact (sortByDate_perm _).symm
  · -- rejected the second time: result is the sort of an already-built list
    have hstep : applyCurrentSnapshot h1 current = sortByDate h1 := by
      unfold applyCurrentSnapshot
      rw [h2]
      rfl
    rw [hstep]
    exact sortByDate_perm _

/-- Witness for C3: a fresh snapshot for a new date on a one-element history is
accepted, and upserting it twice gives the same content as upserting it once. -/
theorem c3_upsert_idempotent_witness :
    (validate_snapshot { date := "2024-02-01", lines_added := 120000 }
        (previousSnapshot [{ date := "2024-01-01", lines_added := 100000 }]
          "2024-02-01")).1 = true ∧
    (applyCurrentSnapshot
        (applyCurrentSnapshot [{ date := "2024-01-01", lines_added := 100000 }]
          { date := "2024-02-01", lines_added := 120000 })
        { date := "2024-02-01", lines_added := 120000 }).Perm
      (applyCurrentSnapshot [{ date := "2024-01-01", lines_added := 100000 }]
        { date := "2024-02-01", lines_added := 120000 }) := by
  have hprev : previousSnapshot [{ date := "2024-01-01", lines_added := 100000 }]
      "2024-02-01" = some { date := "2024-01-01", lines_added := 100000 } := by
    decide
  have hacc : (validate_snapshot { date := "2024-02-01", lines_added := 120000 }
      (previousSnapshot [{ date := "2024-01-01", lines_added := 100000 }]
        "2024-02-01")).1 = true := by
    rw [hprev]
    rfl
  exact ⟨hacc, c3_upsert_idempotent _ _ hacc⟩

/-! ## Backfiller (`backfill_from_api_data`, lines 97–176) -/

/-- `month_key = date_str[:7]  # YYYY-MM`. -/
def monthKey (date_str : String) : String := date_str.take 7

/-- The well-formedness check on one weekly entry:
`isinstance(changes, (list, tuple)) and len(changes) >= 2`, returning the
`(adds, dels)` pair `int(changes[0]), int(changes[1])`; malformed entries
(`else: continue`) yield `none`. -/
def wfWeek (changes : List Int) : Option (Int × Int) :=
  match changes with
  | a :: d :: _ => some (a, d)
  | _ => none

/-- `monthly_adds[month]` after the bucketing loop: the sum of the additions of
all well-formed weekly entries whose date truncates to `month` (0 if none). -/
def monthlyAdds (weekly : List (String × List Int)) (month : String) : Int :=
  (weekly.filterMap (fun p =>
    (wfWeek p.2).bind (fun ad =>
      if monthKey p.1 = month then some ad.1 else none))).sum

/-- `monthly_dels[month]`, analogously. -/
def monthlyDels (weekly : List (String × List Int)) (month : String) : Int :=
  (weekly.filterMap (fun p =>
    (wfWeek p.2).bind (fun ad =>
      if monthKey p.1 = month then some ad.2 else none))).sum

/-- `all_months = sorted(set(monthly_adds.keys()) | set(monthly_dels.keys()))`:
both dicts are keyed by the months of the well-formed weekly entries, so this
is the sorted deduplicated list of those months. -/
def allMonths (weekly : List (String × List Int)) : List String :=
  List.insertionSort (fun a b : String => a ≤ b)
    (weekly.filterMap (fun p => (wfWeek p.2).map (fun _ => monthKey p.1))).dedup

/-- The body of the `for month_idx, month in enumerate(all_months)` loop of
`backfill_from_api_data`: running cumulative adds/dels, skipping months whose
synthetic date is already present (the cumulative totals still advance), and
otherwise emitting one synthetic snapshot. `int(total_repo_count *
(month_idx + 1) / num_months)` truncates a non-negative float division and is
modelled by natural floor division. -/
def backfillLoop (snapshot : Snapshot) (existing_dates : List String)
    (num_months : Nat) :
    List String → Nat → Int → Int → List Snapshot
  | [], _, _, _ => []
  | month :: rest, month_idx, cumulative_adds, cumulative_dels =>
    let weekly := snapshot.lines_changed_by_week
    let cumA := cumulative_adds + monthlyAdds weekly month
    let cumD := cumulative_dels + monthlyDels weekly month
    let synth_date := month ++ "-28"
    if synth_date ∈ existing_dates then
      backfillLoop snapshot existing_dates num_months rest (month_idx + 1) cumA cumD
    else
      { date := synth_date
        synthetic := true
        stargazers := snapshot.stargazers
        forks := snapshot.forks
        total_contributions :=
          (snapshot.contributions_by_year.lookup (month.take 4)).getD 0
        repo_count :=
          if num_months > 0 then
            max 1 (snapshot.repo_count * (month_idx + 1) / num_months)
          else snapshot.repo_count
        lines_added := cumA
        lines_deleted := cumD
        lines_added_month := monthlyAdds weekly month
        lines_deleted_month := monthlyDels weekly month
        languages := snapshot.languages
        contributions_by_year := snapshot.contributions_by_year } ::
      backfillLoop snapshot existing_dates num_months rest (month_idx + 1) cumA cumD

/-- `backfill_from_api_data(snapshot, existing_dates)`. -/
def backfill_from_api_data (snapshot : Snapshot) (existing_dates : List String) :
    List Snapshot :=
  let months := allMonths snapshot.lines_changed_by_week
  backfillLoop snapshot existing_dates months.length months 0 0 0

theorem backfillLoop_dates (snapshot : Snapshot) (existing_dates : List String)
    (num_months : Nat) :
    ∀ (months : List String) (idx : Nat) (cumA cumD : Int),
      (backfillLoop snapshot existing_dates num_months months idx cumA cumD).map
          (fun b => b.date)
        = (months.filter
            (fun m => decide ((m ++ "-28") ∉ existing_dates))).map
            (fun m => m ++ "-28") := by
  intro months
  induction months with
  | nil => intro idx cumA cumD; rfl
  | cons m rest ih =>
    intro idx cumA cumD
    rw [backfillLoop, List.filter_cons]
    by_cases hmem : (m ++ "-28") ∈ existing_dates
    · rw [if_pos hmem]
      simp [hmem, ih]
    · rw [if_neg hmem]
      simp [hmem, ih]

theorem backfillLoop_synthetic (snapshot : Snapshot) (existing_dates : List String)
    (num_months : Nat) :
    ∀ (months : List String) (idx : Nat) (cumA cumD : Int),
      ∀ b ∈ backfillLoop snapshot existing_dates num_months months idx cumA cumD,
        b.synthetic = true := by
  intro months
  induction months with
  | nil => intro idx cumA cumD b hb; simp [backfillLoop] at hb
  | cons m rest ih =>
    intro idx cumA cumD b hb
    rw [backfillLoop] at hb
    split at hb
    · exact ih _ _ _ b hb
    · rcases List.mem_cons.mp hb with hb | hb
      · rw [hb]
      · exact ih _ _ _ b hb

theorem backfillLoop_repo_count (snapshot : Snapshot) (existing_dates : List String)
    (num_months : Nat) (hnum : 0 < num_months) :
    ∀ (months : List String) (idx : Nat) (cumA cumD : Int),
      ∀ b ∈ backfillLoop snapshot existing_dates num_months months idx cumA cumD,
        1 ≤ b.repo_count ∧ (snapshot.repo_count = 0 → b.repo_count = 1) := by
  intro months
  induction months with
  | nil => intro idx cumA cumD b hb; simp [backfillLoop] at hb
  | cons m rest ih =>
    intro idx cumA cumD b hb
    rw [backfillLoop] at hb
    split at hb
    · exact ih _ _ _ b hb
    · rcases List.mem_cons.mp hb with hb | hb
      · subst hb
        refine ⟨?_, ?_⟩
        · simp only [if_pos hnum]
          exact le_max_left 1 _
        · intro hzero
          simp [if_pos hnum, hzero]
      · exact ih _ _ _ b hb

/-- CLAIM C10.  Every synthetic snapshot emitted by the backfiller has
`repo_count ≥ 1` (the `max(1, ...)` floor), even when the input snapshot's
`repo_count` is 0; hence for an account with zero repositories every
backfilled snapshot reports a repo count strictly greater than the account's
actual repository count. -/
theorem c10_backfill_repo_count_floor (snapshot : Snapshot)
    (existing_dates : List String) (b : Snapshot)
    (hb : b ∈ backfill_from_api_data snapshot existing_dates) :
    1 ≤ b.repo_count ∧
      (snapshot.repo_count = 0 → snapshot.repo_count < b.repo_count) := by
  unfold backfill_from_api_data at hb
  rcases hms : allMonths snapshot.lines_changed_by_week with _ | ⟨m, rest⟩
  · rw [hms] at hb
    simp [backfillLoop] at hb
  · rw [hms] at hb
    have h := backfillLoop_repo_count snapshot existing_dates (m :: rest).length
      (by simp) (m :: rest) 0 0 0 b hb
    exact ⟨h.1, fun hzero => by rw [hzero]; omega⟩

/-- Witness for C10: an account with zero repositories and a single week of
activity; the single backfilled January snapshot reports `repo_count = 1 > 0`. -/
theorem c10_backfill_repo_count_floor_witness :
    ({ date := "2024-01-28"
       synthetic := true
       stargazers := 0
       forks := 0
       total_contributions := 0
       repo_count := 1
       lines_added := 5
       lines_deleted := 3
       lines_added_month := 5
       lines_deleted_month := 3
       languages := []
       contributions_by_year := [] } : Snapshot) ∈
      backfill_from_api_data
        { repo_count := 0, lines_changed_by_week := [("2024-01-01", [5, 3])] } [] ∧
    (1 ≤ ({ date := "2024-01-28", synthetic := true, repo_count := 1,
            lines_added := 5, lines_deleted := 3, lines_added_month := 5,
            lines_deleted_month := 3 } : Snapshot).repo_count ∧
      (({ repo_count := 0,
          lines_changed_by_week := [("2024-01-01", [5, 3])] } : Snapshot).repo_count
          = 0 →
        ({ repo_count := 0,
           lines_changed_by_week := [("2024-01-01", [5, 3])] } : Snapshot).repo_count
          < ({ date := "2024-01-28", synthetic := true, repo_count := 1,
               lines_added := 5, lines_deleted := 3, lines_added_month := 5,
               lines_deleted_month := 3 } : Snapshot).repo_count)) := by
  have hmem : ({ date := "2024-01-28", synthetic := true, stargazers := 0,
                 forks := 0, total_contributions := 0, repo_count := 1,
                 lines_added := 5, lines_deleted := 3, lines_added_month := 5,
                 lines_deleted_month := 3, languages := [],
                 contributions_by_year := [] } : Snapshot) ∈
      backfill_from_api_data
        { repo_count := 0, lines_changed_by_week := [("2024-01-01", [5, 3])] }
        ([] : List String) := by decide
  exact ⟨hmem, c10_backfill_repo_count_floor _ _ _ hmem⟩

theorem filterMap_months_of_wf (weekly : List (String × List Int))
    (hwf : ∀ p ∈ weekly, ∃ a d : Int, wfWeek p.2 = some (a, d)) :
    weekly.filterMap (fun p => (wfWeek p.2).map (fun _ => monthKey p.1))
      = weekly.map (fun p => monthKey p.1) := by
  induction weekly with
  | nil => rfl
  | cons p rest ih =>
    obtain ⟨a, d, had⟩ := hwf p (List.mem_cons_self p rest)
    rw [List.filterMap_cons, List.map_cons, had]
    simp only [Option.map_some']
    rw [ih (fun q hq => hwf q (List.mem_cons_of_mem p hq))]

theorem monthlyAdds_nonneg (weekly : List (String × List Int)) (m : String)
    (hwf : ∀ p ∈ weekly, ∃ a d : Int, wfWeek p.2 = some (a, d) ∧ 0 ≤ a ∧ 0 ≤ d) :
    0 ≤ monthlyAdds weekly m := by
  unfold monthlyAdds
  apply List.sum_nonneg
  intro x hx
  rw [List.mem_filterMap] at hx
  obtain ⟨p, hp, hf⟩ := hx
  obtain ⟨a, d, had, ha, hd⟩ := hwf p hp
  rw [had] at hf
  rw [Option.some_bind] at hf
  split at hf
  · cases hf; exact ha
  · cases hf

theorem monthlyDels_nonneg (weekly : List (String × List Int)) (m : String)
    (hwf : ∀ p ∈ weekly, ∃ a d : Int, wfWeek p.2 = some (a, d) ∧ 0 ≤ a ∧ 0 ≤ d) :
    0 ≤ monthlyDels weekly m := by
  unfold monthlyDels
  apply List.sum_nonneg
  intro x hx
  rw [List.mem_filterMap] at hx
  obtain ⟨p, hp, hf⟩ := hx
  obtain ⟨a, d, had, ha, hd⟩ := hwf p hp
  rw [had] at hf
  rw [Option.some_bind] at hf
  split at hf
  · cases hf; exact hd
  · cases hf

theorem allMonths_sorted_lt (weekly : List (String × List Int)) :
    List.Sorted (· < ·) (allMonths weekly) := by
  have hs : List.Sorted (fun a b : String => a ≤ b) (allMonths weekly) :=
    List.sorted_insertionSort _ _
  have hn : (allMonths weekly).Nodup :=
    ((List.perm_insertionSort _ _).nodup_iff).mpr (List.nodup_dedup _)
  exact hs.lt_of_le hn

theorem backfillLoop_cumulative_chain (snapshot : Snapshot)
    (num_months : Nat)
    (hwf : ∀ p ∈ snapshot.lines_changed_by_week,
      ∃ a d : Int, wfWeek p.2 = some (a, d) ∧ 0 ≤ a ∧ 0 ≤ d) :
    ∀ (months : List String) (idx : Nat) (cumA cumD : Int),
      List.Chain'
        (fun a b => a.lines_added ≤ b.lines_added ∧
          a.lines_deleted ≤ b.lines_deleted)
        (backfillLoop snapshot [] num_months months idx cumA cumD) := by
  intro months
  induction months with
  | nil =>
    intro idx cumA cumD
    rw [backfillLoop]
    exact List.chain'_nil
  | cons m rest ih =>
    intro idx cumA cumD
    rw [backfillLoop, if_neg (List.not_mem_nil _)]
    rcases rest with _ | ⟨m2, rest2⟩
    · rw [backfillLoop]
      exact List.chain'_singleton _
    · rw [backfillLoop, if_neg (List.not_mem_nil _)]
      rw [List.chain'_cons]
      refine ⟨⟨?_, ?_⟩, ?_⟩
      · show cumA + monthlyAdds snapshot.lines_changed_by_week m
            ≤ cumA + monthlyAdds snapshot.lines_changed_by_week m
              + monthlyAdds snapshot.lines_changed_by_week m2
        exact le_add_of_nonneg_right
          (monthlyAdds_nonneg snapshot.lines_changed_by_week m2 hwf)
      · show cumD + monthlyDels snapshot.lines_changed_by_week m
            ≤ cumD + monthlyDels snapshot.lines_changed_by_week m
              + monthlyDels snapshot.lines_changed_by_week m2
        exact le_add_of_nonneg_right
          (monthlyDels_nonneg snapshot.lines_changed_by_week m2 hwf)
      · have h2 := ih (idx + 1)
          (cumA + monthlyAdds snapshot.lines_changed_by_week m)
          (cumD + monthlyDels snapshot.lines_changed_by_week m)
        rw [backfillLoop, if_neg (List.not_mem_nil _)] at h2
        exact h2

/-- CLAIM C6.  Backfill coverage on an empty store: when every weekly entry is
a well-formed non-negative additions/deletions pair and no dates exist yet,
the backfiller emits exactly one synthetic snapshot per distinct calendar
month, dated `YYYY-MM-28`, following the strictly ascending month order, and
with cumulative `lines_added`/`lines_deleted` monotonically non-decreasing
along the emitted sequence. -/
theorem c6_backfill_coverage (snapshot : Snapshot)
    (hwf : ∀ p ∈ snapshot.lines_changed_by_week,
      ∃ a d : Int, wfWeek p.2 = some (a, d) ∧ 0 ≤ a ∧ 0 ≤ d) :
    (backfill_from_api_data snapshot []).length
        = ((snapshot.lines_changed_by_week.map (fun p => monthKey p.1)).dedup).length ∧
    (backfill_from_api_data snapshot []).map (fun b => b.date)
        = (allMonths snapshot.lines_changed_by_week).map (fun m => m ++ "-28") ∧
    List.Sorted (· < ·) (allMonths snapshot.lines_changed_by_week) ∧
    (∀ b ∈ backfill_from_api_data snapshot [], b.synthetic = true) ∧
    List.Chain'
      (fun a b => a.lines_added ≤ b.lines_added ∧
        a.lines_deleted ≤ b.lines_deleted)
      (backfill_from_api_data snapshot []) := by
  have hdates : (backfill_from_api_data snapshot []).map (fun b => b.date)
      = (allMonths snapshot.lines_changed_by_week).map (fun m => m ++ "-28") := by
    unfold backfill_from_api_data
    rw [backfillLoop_dates]
    congr 1
    apply List.filter_eq_self.mpr
    intro m _
    simp
  refine ⟨?_, hdates, allMonths_sorted_lt _, ?_, ?_⟩
  · have hlen := congrArg List.length hdates
    rw [List.length_map, List.length_map] at hlen
    rw [hlen]
    unfold allMonths
    rw [List.length_insertionSort]
    congr 1
    rw [filterMap_months_of_wf _ (fun p hp => by
      obtain ⟨a, d, had, _, _⟩ := hwf p hp
      exact ⟨a, d, had⟩)]
  · intro b hb
    exact backfillLoop_synthetic snapshot [] _ _ 0 0 0 b hb
  · exact backfillLoop_cumulative_chain snapshot _ hwf _ 0 0 0

/-- Witness for C6: one well-formed week of data (5 additions, 3 deletions in
January 2024) on an account, backfilled into an empty store. -/
theorem c6_backfill_coverage_witness :
    (∀ p ∈ ({ lines_changed_by_week := [("2024-01-01", [5, 3])] }
        : Snapshot).lines_changed_by_week,
      ∃ a d : Int, wfWeek p.2 = some (a, d) ∧ 0 ≤ a ∧ 0 ≤ d) ∧
    (backfill_from_api_data { lines_changed_by_week := [("2024-01-01", [5, 3])] }
        []).length
      = ((({ lines_changed_by_week := [("2024-01-01", [5, 3])] }
          : Snapshot).lines_changed_by_week.map (fun p => monthKey p.1)).dedup).length := by
  have hwf : ∀ p ∈ ({ lines_changed_by_week := [("2024-01-01", [5, 3])] }
      : Snapshot).lines_changed_by_week,
      ∃ a d : Int, wfWeek p.2 = some (a, d) ∧ 0 ≤ a ∧ 0 ≤ d := by
    intro p hp
    rcases List.mem_singleton.mp hp with rfl
    exact ⟨5, 3, rfl, by norm_num, by norm_num⟩
  exact ⟨hwf, (c6_backfill_coverage _ hwf).1⟩

/-! ## SnapshotStore persistence (`load_history`/`save_history`, lines 39–61)

`load_history` interacts with the file system; its control flow is embedded
over an abstract description of the state of `generated/history.json`:

* `absent`: `os.path.isfile` is false — return `[]`, no warning;
* `unreadable`: `open`/`read` raises `IOError` — caught: warning, return `[]`;
* `corruptJson`: `json.load` raises `JSONDecodeError` — caught: warning,
  return `[]`;
* `parsedNonList`: the file parses but the JSON value is not a list — the
  `isinstance` guard fails and the function falls through to `return []`
  without a warning;
* `parsedList data`: the JSON value is a list; each element is either a JSON
  object (`dictItem`, whose `"date"` access `s.get("date", "")` works and is
  modelled by the `Snapshot` fields) or any other JSON value (`nonDictItem`:
  number, string, bool, null, array — objects without a `.get` attribute).

Crucially, `sorted(data, key=lambda s: s.get("date", ""))` runs *inside* the
`try`, but the `except` clause catches only `JSONDecodeError` and `IOError`:
the key function is applied to every list element, so a list containing any
non-dict element raises an uncaught `AttributeError` out of `load_history`.
(Dict elements whose `"date"` values are not mutually comparable can further
raise an uncaught `TypeError` during the sort; the model keeps date values as
strings and captures the deterministic non-dict crash, which already exhibits
the uncaught-exception path.)

`save_history` writes the in-memory snapshot list verbatim, so "`load()`
immediately after `save(h)`" is modelled as
`load_history (parsedList (h.map dictItem))`. -/
inductive HistoryItem where
  | dictItem (s : Snapshot)
  | nonDictItem

/-- Whether a parsed list element is a JSON object (has `.get`). -/
def HistoryItem.isDict : HistoryItem → Bool
  | .dictItem _ => true
  | .nonDictItem => false

/-- The snapshot carried by a JSON-object element. -/
def HistoryItem.asSnap : HistoryItem → Option Snapshot
  | .dictItem s => some s
  | .nonDictItem => none

inductive HistoryFileState where
  | absent
  | unreadable
  | corruptJson
  | parsedNonList
  | parsedList (data : List HistoryItem)

/-- The observable outcome of one `load_history()` call: a returned snapshot
list together with whether the `Warning: Could not read ...` message was
printed, or an uncaught exception propagating out of the function. -/
inductive LoadOutcome where
  | returns (history : List Snapshot) (warned : Bool)
  | raises
deriving DecidableEq

/-- `load_history()` as a function of the file state.  A parsed list whose
elements are all dicts is returned sorted by date; a parsed list containing
any non-dict element raises (uncaught `AttributeError` from the sort key). -/
def load_history : HistoryFileState → LoadOutcome
  | .absent => .returns [] false
  | .unreadable => .returns [] true
  | .corruptJson => .returns [] true
  | .parsedNonList => .returns [] false
  | .parsedList data =>
    if data.all HistoryItem.isDict then
      .returns (sortByDate (data.filterMap HistoryItem.asSnap)) false
    else .raises

theorem load_history_wellformed (data : List Snapshot) :
    load_history (.parsedList (data.map HistoryItem.dictItem))
      = .returns (sortByDate data) false := by
  simp only [load_history]
  rw [if_pos ?_]
  · have hfm : (data.map HistoryItem.dictItem).filterMap HistoryItem.asSnap
        = data := by
      induction data with
      | nil => rfl
      | cons a t ih =>
        rw [List.map_cons, List.filterMap_cons]
        simp only [HistoryItem.asSnap]
        rw [ih]
    rw [hfm]
  · induction data with
    | nil => rfl
    | cons a t ih =>
      rw [List.map_cons, List.all_cons, ih]
      rfl

/-- CLAIM C5 (the code contradicts it).  The claim says `load_history` never
raises and returns the empty history for every malformed file; but for a file
holding the valid JSON list `[1, 2]` — malformed content with non-dict
elements — the sort key `s.get("date", "")` raises an `AttributeError` that
the `except (json.JSONDecodeError, IOError)` clause does not catch, and
`load_history` raises.  This theorem evaluates the embedded `load_history` at
that failing state, and records what does hold of the remaining file states:
absent/unreadable/undecodable/non-list content yields the empty history with a
warning exactly in the unreadable/corrupt cases, and a well-formed snapshot
list is returned sorted by date (a permutation of the stored list) without
raising. -/
theorem c5_load_raises_on_malformed_list :
    load_history (.parsedList [HistoryItem.nonDictItem]) = .raises ∧
    load_history .absent = .returns [] false ∧
    load_history .unreadable = .returns [] true ∧
    load_history .corruptJson = .returns [] true ∧
    load_history .parsedNonList = .returns [] false ∧
    (∀ data : List Snapshot,
      load_history (.parsedList (data.map HistoryItem.dictItem))
        = .returns (sortByDate data) false ∧
      (sortByDate data).Sorted dateLe ∧
      (sortByDate data).Perm data) :=
  ⟨rfl, rfl, rfl, rfl, rfl, fun data =>
    ⟨load_history_wellformed data, sortByDate_sorted data, sortByDate_perm data⟩⟩

/-! ## The store invariant over operation sequences (C4) -/

theorem append_right_injective (c : String) :
    Function.Injective (fun a : String => a ++ c) := by
  intro a b hab
  apply String.ext
  have hd := congrArg String.data hab
  rw [String.data_append, String.data_append] at hd
  exact List.append_cancel_right hd

theorem backfill_dates_nodup (snapshot : Snapshot) (existing_dates : List String) :
    ((backfill_from_api_data snapshot existing_dates).map
      (fun b => b.date)).Nodup := by
  unfold backfill_from_api_data
  rw [backfillLoop_dates]
  apply List.Nodup.map (append_right_injective "-28")
  apply List.Nodup.filter
  exact ((List.perm_insertionSort _ _).nodup_iff).mpr (List.nodup_dedup _)

theorem backfill_dates_not_existing (snapshot : Snapshot)
    (existing_dates : List String) (b : Snapshot)
    (hb : b ∈ backfill_from_api_data snapshot existing_dates) :
    b.date ∉ existing_dates := by
  have hmem : b.date ∈ (backfill_from_api_data snapshot existing_dates).map
      (fun b => b.date) := List.mem_map_of_mem _ hb
  rw [backfill_from_api_data] at hmem
  rw [backfillLoop_dates] at hmem
  rw [List.mem_map] at hmem
  obtain ⟨m, hm, hdate⟩ := hmem
  rw [List.mem_filter] at hm
  intro hcontra
  rw [← hdate] at hcontra
  exact (of_decide_eq_true hm.2) hcontra

/-- One run-level operation on the persisted store, as `generate_history`
performs them: a backfill pass (which extends the history with synthetic
snapshots only when the history is empty, lines 261–265) or the validated
upsert of a current snapshot (lines 267–291). -/
inductive StoreOp where
  | backfillOp (snap : Snapshot)
  | upsertOp (snap : Snapshot)

/-- Apply one store operation to the in-memory history. -/
def applyStoreOp (history : List Snapshot) : StoreOp → List Snapshot
  | .backfillOp snap =>
    if history.isEmpty then
      history ++ backfill_from_api_data snap (history.map (fun s => s.date))
    else history
  | .upsertOp snap => applyCurrentSnapshot history snap

/-- The store contents after a sequence of operations, starting empty. -/
def runStore (ops : List StoreOp) : List Snapshot :=
  ops.foldl applyStoreOp []

theorem applyStoreOp_dates_nodup (history : List Snapshot) (op : StoreOp)
    (hnd : (history.map (fun s => s.date)).Nodup) :
    ((applyStoreOp history op).map (fun s => s.date)).Nodup := by
  rcases op with snap | snap
  · rw [applyStoreOp]
    split
    case isTrue hempty =>
      rw [List.isEmpty_iff] at hempty
      subst hempty
      simpa using backfill_dates_nodup snap []
    case isFalse hempty => exact hnd
  · rw [applyStoreOp]
    unfold applyCurrentSnapshot
    have hperm : ((sortByDate
        (if (validate_snapshot snap (previousSnapshot history snap.date)).1 then
          (history.filter (fun s => decide (s.date ≠ snap.date))) ++ [snap]
        else history)).map (fun s => s.date)).Perm
        ((if (validate_snapshot snap (previousSnapshot history snap.date)).1 then
          (history.filter (fun s => decide (s.date ≠ snap.date))) ++ [snap]
        else history).map (fun s => s.date)) :=
      List.Perm.map _ (sortByDate_perm _)
    rw [hperm.nodup_iff]
    split
    · rw [List.map_append]
      have hfilter_nodup : ((history.filter
          (fun s => decide (s.date ≠ snap.date))).map (fun s => s.date)).Nodup :=
        (List.Sublist.map _ (List.filter_sublist history)).nodup hnd
      refine ((List.perm_append_singleton _ _).nodup_iff).mpr ?_
      rw [List.nodup_cons]
      refine ⟨fun hcontra => ?_, hfilter_nodup⟩
      rw [List.mem_map] at hcontra
      obtain ⟨s, hs, hdate⟩ := hcontra
      rw [List.mem_filter] at hs
      apply of_decide_eq_true hs.2
      simpa using hdate
    · exact hnd

theorem runStore_dates_nodup (ops : List StoreOp) :
    ((runStore ops).map (fun s => s.date)).Nodup := by
  unfold runStore
  suffices h : ∀ (ops : List StoreOp) (history : List Snapshot),
      (history.map (fun s => s.date)).Nodup →
      ((ops.foldl applyStoreOp history).map (fun s => s.date)).Nodup by
    exact h ops [] (by simp)
  intro ops
  induction ops with
  | nil => intro history hnd; exact hnd
  | cons op rest ih =>
    intro history hnd
    exact ih _ (applyStoreOp_dates_nodup history op hnd)

/-- CLAIM C4.  Store sort invariant: starting from an empty store, after any
sequence of backfill and upsert operations followed by `save`, `load` returns
(without raising or warning — the store's own output is a well-formed snapshot
array) a list of snapshots whose dates are strictly increasing — sorted
ascending by date with no two entries sharing a date. -/
theorem c4_store_sort_invariant (ops : List StoreOp) :
    load_history (.parsedList ((runStore ops).map HistoryItem.dictItem))
      = .returns (sortByDate (runStore ops)) false ∧
    List.Sorted (· < ·)
      ((sortByDate (runStore ops)).map (fun s => s.date)) := by
  refine ⟨load_history_wellformed _, ?_⟩
  have hsorted : (sortByDate (runStore ops)).Sorted dateLe :=
    sortByDate_sorted _
  have hle : List.Sorted (fun a b : String => a ≤ b)
      ((sortByDate (runStore ops)).map (fun s => s.date)) := by
    rw [List.Sorted, List.pairwise_map]
    exact hsorted
  have hnd : ((sortByDate (runStore ops)).map (fun s => s.date)).Nodup :=
    ((List.Perm.map _ (sortByDate_perm _)).nodup_iff).mpr
      (runStore_dates_nodup ops)
  exact hle.lt_of_le hnd

/-! ## TrendProjector slope computation (`_linreg_slope`, lines 400–415) -/

/-- `_linreg_slope(ys)`: the OLS slope for a sequence `y[0..m-1]` vs
`x = 0..m-1`, exactly as computed in the source — closed-form sums
`sx = m(m-1)/2` and `sx2 = m(m-1)(2m-1)/6`, `sy = sum(ys)`,
`sxy = sum(i * ys[i] for i in range(m))`, returning
`(m*sxy - sx*sy)/denom` when `denom = m*sx2 - sx*sx` is nonzero, and 0 for
fewer than two points (float arithmetic modelled by `ℚ`). -/
def linreg_slope (ys : List ℚ) : ℚ :=
  let m := ys.length
  if m < 2 then 0
  else
    let sx : ℚ := (m : ℚ) * ((m : ℚ) - 1) / 2
    let sx2 : ℚ := (m : ℚ) * ((m : ℚ) - 1) * (2 * (m : ℚ) - 1) / 6
    let sy : ℚ := ys.sum
    let sxy : ℚ := ∑ i in Finset.range m, (i : ℚ) * ys.getD i 0
    let denom : ℚ := (m : ℚ) * sx2 - sx * sx
    if denom ≠ 0 then ((m : ℚ) * sxy - sx * sy) / denom else 0

/-- The ordinary least-squares slope as the spec words it (textbook
mean-centered covariance over variance form); used to state the refinement
half of C7 against the source's closed-form implementation. -/
def olsSlope (ys : List ℚ) : ℚ :=
  let m := ys.length
  if m < 2 then 0
  else
    let xbar : ℚ := (∑ i in Finset.range m, (i : ℚ)) / (m : ℚ)
    let ybar : ℚ := (∑ i in Finset.range m, ys.getD i 0) / (m : ℚ)
    (∑ i in Finset.range m, ((i : ℚ) - xbar) * (ys.getD i 0 - ybar)) /
      (∑ i in Finset.range m, ((i : ℚ) - xbar) ^ 2)

/-- The slope used for the additions/deletions projections (lines 414–415):
`max(0.0, _linreg_slope(...))`. -/
def forecastSlope (ys : List ℚ) : ℚ := max 0 (linreg_slope ys)

theorem sum_range_cast (m : ℕ) :
    (∑ i in Finset.range m, (i : ℚ)) = (m : ℚ) * ((m : ℚ) - 1) / 2 := by
  induction m with
  | zero => simp
  | succ n ih =>
    rw [Finset.sum_range_succ, ih]
    push_cast
    ring

theorem sum_range_sq_cast (m : ℕ) :
    (∑ i in Finset.range m, (i : ℚ) ^ 2)
      = (m : ℚ) * ((m : ℚ) - 1) * (2 * (m : ℚ) - 1) / 6 := by
  induction m with
  | zero => simp
  | succ n ih =>
    rw [Finset.sum_range_succ, ih]
    push_cast
    ring

theorem list_sum_eq_sum_range (ys : List ℚ) :
    ys.sum = ∑ i in Finset.range ys.length, ys.getD i 0 := by
  induction ys with
  | nil => simp
  | cons a t ih =>
    rw [List.sum_cons, List.length_cons, Finset.sum_range_succ' (fun i => (a :: t).getD i 0)]
    simp only [List.getD_cons_succ, List.getD_cons_zero]
    rw [← ih]
    ring

theorem centered_cov_eq (m : ℕ) (hm : (m : ℚ) ≠ 0) (y : ℕ → ℚ) :
    (∑ i in Finset.range m,
        ((i : ℚ) - (∑ j in Finset.range m, (j : ℚ)) / (m : ℚ)) *
          (y i - (∑ j in Finset.range m, y j) / (m : ℚ)))
      = (∑ i in Finset.range m, (i : ℚ) * y i) -
          (∑ i in Finset.range m, (i : ℚ)) * (∑ i in Finset.range m, y i) / (m : ℚ) := by
  have hexp : ∀ i ∈ Finset.range m,
      ((i : ℚ) - (∑ j in Finset.range m, (j : ℚ)) / (m : ℚ)) *
          (y i - (∑ j in Finset.range m, y j) / (m : ℚ))
        = (i : ℚ) * y i
            - ((∑ j in Finset.range m, (j : ℚ)) / (m : ℚ)) * y i
            - ((∑ j in Finset.range m, y j) / (m : ℚ)) * (i : ℚ)
            + ((∑ j in Finset.range m, (j : ℚ)) / (m : ℚ)) *
                ((∑ j in Finset.range m, y j) / (m : ℚ)) := by
    intro i _
    ring
  rw [Finset.sum_congr rfl hexp]
  simp only [Finset.sum_add_distrib, Finset.sum_sub_distrib, ← Finset.mul_sum,
    Finset.sum_const, Finset.card_range, nsmul_eq_mul]
  field_simp
  ring

theorem centered_var_eq (m : ℕ) (hm : (m : ℚ) ≠ 0) :
    (∑ i in Finset.range m,
        ((i : ℚ) - (∑ j in Finset.range m, (j : ℚ)) / (m : ℚ)) ^ 2)
      = (∑ i in Finset.range m, (i : ℚ) ^ 2) -
          (∑ i in Finset.range m, (i : ℚ)) ^ 2 / (m : ℚ) := by
  have hexp : ∀ i ∈ Finset.range m,
      ((i : ℚ) - (∑ j in Finset.range m, (j : ℚ)) / (m : ℚ)) ^ 2
        = (i : ℚ) ^ 2
            - 2 * ((∑ j in Finset.range m, (j : ℚ)) / (m : ℚ)) * (i : ℚ)
            + ((∑ j in Finset.range m, (j : ℚ)) / (m : ℚ)) ^ 2 := by
    intro i _
    ring
  rw [Finset.sum_congr rfl hexp]
  simp only [Finset.sum_add_distrib, Finset.sum_sub_distrib, ← Finset.mul_sum,
    Finset.sum_const, Finset.card_range, nsmul_eq_mul]
  field_simp
  ring

theorem linreg_denom_eq (m : ℕ) :
    (m : ℚ) * ((m : ℚ) * ((m : ℚ) - 1) * (2 * (m : ℚ) - 1) / 6)
        - ((m : ℚ) * ((m : ℚ) - 1) / 2) * ((m : ℚ) * ((m : ℚ) - 1) / 2)
      = (m : ℚ) ^ 2 * ((m : ℚ) - 1) * ((m : ℚ) + 1) / 12 := by
  ring

theorem linreg_denom_pos (m : ℕ) (hm : 2 ≤ m) :
    0 < (m : ℚ) ^ 2 * ((m : ℚ) - 1) * ((m : ℚ) + 1) / 12 := by
  have h2 : (2 : ℚ) ≤ (m : ℚ) := by exact_mod_cast hm
  have h0 : (0 : ℚ) < (m : ℚ) := by linarith
  have h1 : (0 : ℚ) < (m : ℚ) - 1 := by linarith
  have h3 : (0 : ℚ) < (m : ℚ) + 1 := by linarith
  positivity

theorem linreg_slope_eq_olsSlope (ys : List ℚ) : linreg_slope ys = olsSlope ys := by
  rcases Nat.lt_or_ge ys.length 2 with hm | hm
  · simp only [linreg_slope, olsSlope, if_pos hm]
  · have hmlt : ¬ ys.length < 2 := not_lt.mpr hm
    simp only [linreg_slope, olsSlope, if_neg hmlt]
    have hM0 : ((ys.length : ℚ)) ≠ 0 := by
      have : (2 : ℚ) ≤ (ys.length : ℚ) := by exact_mod_cast hm
      linarith
    have hdenne : (ys.length : ℚ) *
          ((ys.length : ℚ) * ((ys.length : ℚ) - 1) * (2 * (ys.length : ℚ) - 1) / 6)
        - ((ys.length : ℚ) * ((ys.length : ℚ) - 1) / 2) *
          ((ys.length : ℚ) * ((ys.length : ℚ) - 1) / 2) ≠ 0 := by
      rw [linreg_denom_eq]
      exact ne_of_gt (linreg_denom_pos ys.length hm)
    rw [if_pos hdenne]
    rw [centered_cov_eq ys.length hM0 (fun i => ys.getD i 0),
      centered_var_eq ys.length hM0]
    rw [list_sum_eq_sum_range ys]
    rw [← sum_range_cast ys.length, ← sum_range_sq_cast ys.length] at hdenne ⊢
    have hden2 : (∑ i in Finset.range ys.length, (i : ℚ) ^ 2)
        - (∑ i in Finset.range ys.length, (i : ℚ)) ^ 2 / (ys.length : ℚ) ≠ 0 := by
      intro hcontra
      apply hdenne
      field_simp at hcontra
      rw [sq] at hcontra
      linarith [hcontra]
    rw [div_eq_div_iff hdenne hden2]
    field_simp
    ring

/-- CLAIM C7.  Slope computation: `_linreg_slope` equals the ordinary
least-squares slope of the values against indices `0..m-1` (mean-centered
covariance over variance); sequences of fewer than 2 points get slope 0; the
slope used for the additions/deletions projections is floored at 0; and a
constant sequence yields slope 0. -/
theorem c7_linreg_slope :
    (∀ ys : List ℚ, linreg_slope ys = olsSlope ys) ∧
    (∀ ys : List ℚ, ys.length < 2 → linreg_slope ys = 0) ∧
    (∀ ys : List ℚ, 0 ≤ forecastSlope ys) ∧
    (∀ (n : ℕ) (c : ℚ), linreg_slope (List.replicate n c) = 0) := by
  refine ⟨linreg_slope_eq_olsSlope, fun ys h => ?_, fun ys => le_max_left 0 _, ?_⟩
  · simp only [linreg_slope, if_pos h]
  · intro n c
    rcases Nat.lt_or_ge n 2 with hn | hn
    · simp only [linreg_slope, List.length_replicate, if_pos hn]
    · have hnlt : ¬ (List.replicate n c).length < 2 := by
        rw [List.length_replicate]
        omega
      simp only [linreg_slope, if_neg hnlt, List.length_replicate]
      have hsxy : (∑ i in Finset.range n, (i : ℚ) * (List.replicate n c).getD i 0)
          = (∑ i in Finset.range n, (i : ℚ)) * c := by
        rw [Finset.sum_mul]
        apply Finset.sum_congr rfl
        intro i hi
        rw [Finset.mem_range] at hi
        rw [List.getD_eq_getElem?_getD, List.getElem?_replicate, if_pos hi]
        rfl
      have hsy : (List.replicate n c).sum = (n : ℚ) * c := by
        rw [List.sum_replicate, nsmul_eq_mul]
      rw [hsxy, hsy, sum_range_cast]
      have hnum : (n : ℚ) * ((n : ℚ) * ((n : ℚ) - 1) / 2 * c)
          - (n : ℚ) * ((n : ℚ) - 1) / 2 * ((n : ℚ) * c) = 0 := by ring
      rw [hnum]
      simp

/-- Witness for C7: the single-point sequence `[5]` has fewer than 2 points
and slope 0. -/
theorem c7_linreg_slope_witness :
    [(5 : ℚ)].length < 2 ∧ linreg_slope [(5 : ℚ)] = 0 :=
  ⟨by norm_num, c7_linreg_slope.2.1 [(5 : ℚ)] (by norm_num)⟩

/-! ## Language forecast rescaling (`generate_history`, lines 422–429, 495–506)

The per-forecast-point language block is embedded as a function of the tracked
language list, the per-language real series, `first_lang_idx`, `n_real` and
the step multiple `mult` (`h1_steps` resp. `h2_steps` at the two forecast
points). -/

/-- `lang_trends[lang]` (lines 426–429): OLS slope over the slice
`lang_series[lang][first_lang_idx:n_real]`, or 0 for fewer than 2 values. -/
def langTrend (series : List ℚ) (first_lang_idx n_real : ℕ) : ℚ :=
  let vals := (series.take n_real).drop first_lang_idx
  if vals.length ≥ 2 then linreg_slope vals else 0

/-- `base_val = lang_series[lang][n_real - 1] if lang_series[lang] else 0.0`
(line 497); the in-range index access is modelled with `getD`. -/
def langBase (series : List ℚ) (n_real : ℕ) : ℚ :=
  if series.isEmpty then 0 else series.getD (n_real - 1) 0

/-- `raw[lang] = max(0.0, base_val + mult * lang_trends[lang])` (line 498). -/
def forecastRaw (series : List ℚ) (first_lang_idx n_real : ℕ) (mult : ℚ) : ℚ :=
  max 0 (langBase series n_real + mult * langTrend series first_lang_idx n_real)

/-- The rescale block (lines 499–506): `raw` is multiplied by
`real_total / raw_total` only when both totals are positive; the resulting
per-language proportions are what gets appended to `lang_series`. -/
def forecastLangProps (top_langs : List String) (lang_series : String → List ℚ)
    (first_lang_idx n_real : ℕ) (mult : ℚ) : String → ℚ :=
  let raw := fun lang =>
    forecastRaw (lang_series lang) first_lang_idx n_real mult
  let raw_total := (top_langs.map raw).sum
  let real_total :=
    (top_langs.map (fun lang => (lang_series lang).getD (n_real - 1) 0)).sum
  if raw_total > 0 ∧ real_total > 0 then
    fun lang => raw lang * (real_total / raw_total)
  else raw

theorem linreg_slope_pair (a b : ℚ) : linreg_slope [a, b] = b - a := by
  have h2 : ¬ ([a, b] : List ℚ).length < 2 := by norm_num
  simp only [linreg_slope, if_neg h2]
  norm_num [Finset.sum_range_succ]
  ring

/-- CLAIM C8 counterexample.  With one tracked language whose proportions fell
from 10 to 1 over the two real snapshots (computed trend −9) and step multiple
`mult = 1` (reachable: two snapshots 14 days apart give `h1_steps = 1`), the
floored raw forecast total is 0, so rescaling is skipped and the appended
proportions sum to 0 while the last real snapshot's tracked sum is 1 — the
claimed conservation equality fails. -/
theorem c8_conservation_counterexample :
    (["A"] : List String) ≠ [] ∧
    (2 : ℕ) ≤ 2 ∧
    ((["A"] : List String).map
        (forecastLangProps ["A"] (fun _ => [(10 : ℚ), 1]) 0 2 1)).sum = 0 ∧
    ((["A"] : List String).map
        (fun lang => ((fun _ => [(10 : ℚ), 1]) lang).getD (2 - 1) 0)).sum = 1 ∧
    ((["A"] : List String).map
        (forecastLangProps ["A"] (fun _ => [(10 : ℚ), 1]) 0 2 1)).sum
      ≠ ((["A"] : List String).map
        (fun lang => ((fun _ => [(10 : ℚ), 1]) lang).getD (2 - 1) 0)).sum := by
  have htrend : langTrend [(10 : ℚ), 1] 0 2 = -9 := by
    simp only [langTrend]
    norm_num [linreg_slope_pair]
  have hraw : forecastRaw [(10 : ℚ), 1] 0 2 1 = 0 := by
    simp only [forecastRaw, htrend, langBase]
    norm_num
  have happ : ((["A"] : List String).map
      (forecastLangProps ["A"] (fun _ => [(10 : ℚ), 1]) 0 2 1)).sum = 0 := by
    simp only [forecastLangProps, hraw]
    norm_num
  refine ⟨by simp, le_refl 2, happ, by norm_num, ?_⟩
  rw [happ]
  norm_num

/-- CLAIM C8, amended.  The summed appended forecast proportions equal the last
real snapshot's tracked-language sum provided both the floored raw
extrapolated total and the real total are positive (the code's rescale
condition); otherwise the unrescaled floored values are appended. -/
theorem c8_conservation_amended (top_langs : List String)
    (lang_series : String → List ℚ) (first_lang_idx n_real : ℕ) (mult : ℚ)
    (hraw : 0 < (top_langs.map
      (fun lang => forecastRaw (lang_series lang) first_lang_idx n_real mult)).sum)
    (hreal : 0 < (top_langs.map
      (fun lang => (lang_series lang).getD (n_real - 1) 0)).sum) :
    (top_langs.map
        (forecastLangProps top_langs lang_series first_lang_idx n_real mult)).sum
      = (top_langs.map
        (fun lang => (lang_series lang).getD (n_real - 1) 0)).sum := by
  simp only [forecastLangProps]
  rw [if_pos ⟨hraw, hreal⟩]
  have hsum : (top_langs.map (fun lang =>
      forecastRaw (lang_series lang) first_lang_idx n_real mult *
        ((top_langs.map
          (fun lang => (lang_series lang).getD (n_real - 1) 0)).sum /
          (top_langs.map (fun lang =>
            forecastRaw (lang_series lang) first_lang_idx n_real mult)).sum))).sum
      = (top_langs.map (fun lang =>
          forecastRaw (lang_series lang) first_lang_idx n_real mult)).sum *
        ((top_langs.map
          (fun lang => (lang_series lang).getD (n_real - 1) 0)).sum /
          (top_langs.map (fun lang =>
            forecastRaw (lang_series lang) first_lang_idx n_real mult)).sum) := by
    rw [← List.sum_map_mul_right]
  rw [hsum, mul_comm, div_mul_cancel₀ _ (ne_of_gt hraw)]

/-- Witness for the amended C8: one tracked language rising from 1 to 2; the
raw forecast total 3 and real total 2 are positive and the appended sum equals
the real sum. -/
theorem c8_conservation_amended_witness :
    0 < ((["A"] : List String).map
      (fun lang => forecastRaw ((fun _ => [(1 : ℚ), 2]) lang) 0 2 1)).sum ∧
    0 < ((["A"] : List String).map
      (fun lang => ((fun _ => [(1 : ℚ), 2]) lang).getD (2 - 1) 0)).sum ∧
    ((["A"] : List String).map
        (forecastLangProps ["A"] (fun _ => [(1 : ℚ), 2]) 0 2 1)).sum
      = ((["A"] : List String).map
        (fun lang => ((fun _ => [(1 : ℚ), 2]) lang).getD (2 - 1) 0)).sum := by
  have htrend : langTrend [(1 : ℚ), 2] 0 2 = 1 := by
    simp only [langTrend]
    norm_num [linreg_slope_pair]
  have hraw : 0 < ((["A"] : List String).map
      (fun lang => forecastRaw ((fun _ => [(1 : ℚ), 2]) lang) 0 2 1)).sum := by
    simp only [forecastRaw, htrend, langBase]
    norm_num
  have hreal : 0 < ((["A"] : List String).map
      (fun lang => ((fun _ => [(1 : ℚ), 2]) lang).getD (2 - 1) 0)).sum := by
    norm_num
  exact ⟨hraw, hreal, c8_conservation_amended _ _ _ _ _ hraw hreal⟩

/-! ## MilestoneDetector (`generate_milestones`, lines 1010–1101)

The embedding keeps the `date` and `label` of each milestone entry; the
`icon`/`value`/`color` presentation fields do not influence the detection or
deduplication logic.  Python's `cum_contribs_seen` dict is an association
list updated in place (unique keys), and `f"{thr:,}"` comma grouping is not
reproduced in labels (labels stay injective per metric). -/

def CONTRIB_THRESHOLDS : List Nat := [100, 250, 500, 1000, 1500, 2000, 2500]

def STAR_THRESHOLDS : List Nat := [1, 5, 10, 20, 30, 50]

def REPO_THRESHOLDS : List Nat := [5, 10, 25, 50]

structure Milestone where
  date : String
  label : String
deriving DecidableEq

def contribLabel (thr : Nat) : String := toString thr ++ " Contributions"

def starLabel (thr : Nat) : String := toString thr ++ " Stars"

def repoLabel (thr : Nat) : String := toString thr ++ " Repos"

/-- `cum_contribs_seen.get(yr, 0)`. -/
def dictGet (l : List (String × Nat)) (k : String) : Nat :=
  ((l.find? (fun p => p.1 == k)).map (fun p => p.2)).getD 0

/-- `cum_contribs_seen[yr] = val`: replace the entry for `k` if present,
append it otherwise. -/
def dictSet (l : List (String × Nat)) (k : String) (v : Nat) :
    List (String × Nat) :=
  if l.any (fun p => p.1 == k) then
    l.map (fun p => if p.1 == k then (k, v) else p)
  else l ++ [(k, v)]

/-- The `for yr, val in by_year.items(): if val > cum_contribs_seen.get(yr, 0)`
loop (lines 1045–1047). -/
def updateCum (cum : List (String × Nat)) (by_year : List (String × Nat)) :
    List (String × Nat) :=
  by_year.foldl
    (fun acc p => if dictGet acc p.1 < p.2 then dictSet acc p.1 p.2 else acc) cum

/-- `total_contribs = sum(cum_contribs_seen.values())` (line 1048). -/
def cumTotal (cum : List (String × Nat)) : Nat := (cum.map (fun p => p.2)).sum

/-- The loop state of `generate_milestones`: the per-year maxima seen so far,
the previous snapshot's reconstructed total, the three lists of thresholds not
yet fired, and the milestones collected so far. -/
structure MsState where
  cum : List (String × Nat)
  prevTotal : Nat
  contribLeft : List Nat
  starLeft : List Nat
  repoLeft : List Nat
  ms : List Milestone

/-- One iteration of the `for snap in sorted_history` loop (lines 1040–1092):
update the per-year maxima, then fire each still-pending threshold that the
current totals meet (contributions additionally guarded by
`thr >= prev_total_contribs`), removing fired thresholds. -/
def msStep (st : MsState) (snap : Snapshot) : MsState :=
  let cum2 := updateCum st.cum snap.contributions_by_year
  let total := cumTotal cum2
  let firedC := (st.contribLeft.filter (fun thr => decide (total ≥ thr))).filter
      (fun thr => decide (thr ≥ st.prevTotal))
  let newC := firedC.map (fun thr => Milestone.mk snap.date (contribLabel thr))
  let contribLeft2 := st.contribLeft.filter (fun thr => decide (¬ total ≥ thr))
  let firedS := st.starLeft.filter (fun thr => decide (snap.stargazers ≥ thr))
  let newS := firedS.map (fun thr => Milestone.mk snap.date (starLabel thr))
  let starLeft2 := st.starLeft.filter (fun thr => decide (¬ snap.stargazers ≥ thr))
  let firedR := st.repoLeft.filter (fun thr => decide (snap.repo_count ≥ thr))
  let newR := firedR.map (fun thr => Milestone.mk snap.date (repoLabel thr))
  let repoLeft2 := st.repoLeft.filter (fun thr => decide (¬ snap.repo_count ≥ thr))
  ⟨cum2, total, contribLeft2, starLeft2, repoLeft2,
    st.ms ++ newC ++ newS ++ newR⟩

/-- The initial state: `sorted(<THRESHOLDS>)` for each pending list
(lines 1032–1038). -/
def msInit : MsState :=
  ⟨[], 0,
    List.insertionSort (fun a b => a ≤ b) CONTRIB_THRESHOLDS,
    List.insertionSort (fun a b => a ≤ b) STAR_THRESHOLDS,
    List.insertionSort (fun a b => a ≤ b) REPO_THRESHOLDS, []⟩

/-- The final dedup pass (lines 1094–1101): keep the first occurrence of each
label. -/
def dedupByLabel : List Milestone → List String → List Milestone
  | [], _ => []
  | m :: rest, seen =>
    if m.label ∈ seen then dedupByLabel rest seen
    else m :: dedupByLabel rest (m.label :: seen)

/-- `generate_milestones`' milestone-derivation pipeline: sort the history by
date, run the threshold scan, deduplicate by label. -/
def generate_milestones (history : List Snapshot) : List Milestone :=
  dedupByLabel ((sortByDate history).foldl msStep msInit).ms []

/-- The date of the first snapshot of `l` (processed with accumulator `cum`)
whose reconstructed contribution total meets `thr` — the reference point for
C9's "first snapshot at which the threshold was met or exceeded". -/
def contribFirstDate (cum : List (String × Nat)) (thr : Nat) :
    List Snapshot → Option String
  | [] => none
  | s :: rest =>
    if cumTotal (updateCum cum s.contributions_by_year) ≥ thr then some s.date
    else contribFirstDate (updateCum cum s.contributions_by_year) thr rest

/-- The date of the first snapshot with `stargazers ≥ thr`. -/
def starFirstDate (l : List Snapshot) (thr : Nat) : Option String :=
  (l.find? (fun s => decide (s.stargazers ≥ thr))).map (fun s => s.date)

/-- The date of the first snapshot with `repo_count ≥ thr`. -/
def repoFirstDate (l : List Snapshot) (thr : Nat) : Option String :=
  (l.find? (fun s => decide (s.repo_count ≥ thr))).map (fun s => s.date)

theorem dictSet_keys_nodup (l : List (String × Nat)) (k : String) (v : Nat)
    (hnd : (l.map (fun p => p.1)).Nodup) :
    ((dictSet l k v).map (fun p => p.1)).Nodup := by
  unfold dictSet
  split
  case isTrue hany =>
    have hkeys : (l.map (fun p => if p.1 == k then (k, v) else p)).map
        (fun p => p.1) = l.map (fun p => p.1) := by
      rw [List.map_map]
      apply List.map_congr_left
      intro p _
      by_cases hpk : p.1 == k
      · simp only [Function.comp_apply, if_pos hpk]
        exact (eq_of_beq hpk).symm
      · simp only [Function.comp_apply, if_neg hpk]
    rw [hkeys]
    exact hnd
  case isFalse hany =>
    rw [List.map_append]
    refine ((List.perm_append_singleton _ _).nodup_iff).mpr ?_
    rw [List.nodup_cons]
    refine ⟨fun hcontra => ?_, hnd⟩
    rw [List.mem_map] at hcontra
    obtain ⟨p, hp, hpk⟩ := hcontra
    exact hany (List.any_eq_true.mpr ⟨p, hp, beq_iff_eq.mpr hpk⟩)

theorem cumTotal_dictSet_le (l : List (String × Nat)) (k : String) (v : Nat)
    (hnd : (l.map (fun p => p.1)).Nodup) (hv : dictGet l k ≤ v) :
    cumTotal l ≤ cumTotal (dictSet l k v) := by
  induction l with
  | nil =>
    simp [dictSet, cumTotal]
  | cons p t ih =>
    rw [List.map_cons, List.nodup_cons] at hnd
    by_cases hpk : p.1 == k
    · -- the head is the entry for k: it is replaced, the tail is untouched
      have htail : ∀ q ∈ t, (q.1 == k) = false := by
        intro q hq
        by_contra hq2
        rw [Bool.not_eq_false] at hq2
        apply hnd.1
        rw [eq_of_beq hpk, ← eq_of_beq hq2]
        exact List.mem_map_of_mem _ hq
      have hget : dictGet (p :: t) k = p.2 := by
        simp only [dictGet, List.find?_cons, hpk]
        rfl
      have hset : dictSet (p :: t) k v = (k, v) :: t := by
        unfold dictSet
        rw [if_pos ?_]
        · rw [List.map_cons, if_pos hpk]
          congr 1
          calc List.map (fun q => if q.1 == k then (k, v) else q) t
              = List.map id t :=
                List.map_congr_left (fun q hq => by rw [htail q hq]; rfl)
            _ = t := List.map_id t
        · rw [List.any_cons, hpk, Bool.true_or]
      rw [hset]
      unfold cumTotal
      rw [List.map_cons, List.map_cons, List.sum_cons, List.sum_cons]
      rw [hget] at hv
      omega
    · -- the head is not the entry for k
      have hpk2 : (p.1 == k) = false := by simpa using hpk
      have hget : dictGet (p :: t) k = dictGet t k := by
        simp only [dictGet, List.find?_cons, hpk2]
      rw [hget] at hv
      have hih := ih hnd.2 hv
      unfold dictSet at hih ⊢
      rw [List.any_cons, hpk2, Bool.false_or]
      by_cases hany : t.any (fun p => p.1 == k) = true
      · rw [if_pos hany] at hih ⊢
        rw [List.map_cons, if_neg (by simp [hpk2])]
        unfold cumTotal at hih ⊢
        rw [List.map_cons, List.map_cons, List.sum_cons, List.sum_cons]
        omega
      · rw [if_neg hany] at hih ⊢
        rw [List.cons_append]
        unfold cumTotal at hih ⊢
        rw [List.map_cons, List.map_cons, List.sum_cons, List.sum_cons]
        omega

theorem updateCum_keys_nodup (by_year : List (String × Nat)) :
    ∀ (cum : List (String × Nat)), (cum.map (fun p => p.1)).Nodup →
      ((updateCum cum by_year).map (fun p => p.1)).Nodup := by
  induction by_year with
  | nil => intro cum h; exact h
  | cons p rest ih =>
    intro cum h
    unfold updateCum
    rw [List.foldl_cons]
    apply ih
    split
    · exact dictSet_keys_nodup cum p.1 p.2 h
    · exact h

theorem cumTotal_updateCum_le (by_year : List (String × Nat)) :
    ∀ (cum : List (String × Nat)), (cum.map (fun p => p.1)).Nodup →
      cumTotal cum ≤ cumTotal (updateCum cum by_year) := by
  induction by_year with
  | nil => intro cum h; exact le_refl _
  | cons p rest ih =>
    intro cum h
    unfold updateCum
    rw [List.foldl_cons]
    split
    case isTrue hlt =>
      calc cumTotal cum
          ≤ cumTotal (dictSet cum p.1 p.2) :=
            cumTotal_dictSet_le cum p.1 p.2 h (le_of_lt hlt)
        _ ≤ _ := ih (dictSet cum p.1 p.2) (dictSet_keys_nodup cum p.1 p.2 h)
    case isFalse hlt => exact ih cum h

theorem starFirstDate_cons (s : Snapshot) (rest : List Snapshot) (thr : Nat) :
    starFirstDate (s :: rest) thr =
      if s.stargazers ≥ thr then some s.date else starFirstDate rest thr := by
  by_cases h : s.stargazers ≥ thr
  · rw [if_pos h]
    unfold starFirstDate
    rw [List.find?_cons, decide_eq_true h]
    rfl
  · rw [if_neg h]
    unfold starFirstDate
    rw [List.find?_cons, decide_eq_false h]

theorem repoFirstDate_cons (s : Snapshot) (rest : List Snapshot) (thr : Nat) :
    repoFirstDate (s :: rest) thr =
      if s.repo_count ≥ thr then some s.date else repoFirstDate rest thr := by
  by_cases h : s.repo_count ≥ thr
  · rw [if_pos h]
    unfold repoFirstDate
    rw [List.find?_cons, decide_eq_true h]
    rfl
  · rw [if_neg h]
    unfold repoFirstDate
    rw [List.find?_cons, decide_eq_false h]

theorem mem_fired_map_iff (d : String) (left : List Nat) (mkl : Nat → String)
    (pred : Nat → Bool) (m : Milestone) :
    (m ∈ (left.filter pred).map (fun thr => Milestone.mk d (mkl thr)) ↔
      ∃ thr, thr ∈ left ∧ pred thr = true ∧ m.date = d ∧ m.label = mkl thr) := by
  rw [List.mem_map]
  constructor
  · rintro ⟨thr, hthr, heq⟩
    rw [List.mem_filter] at hthr
    exact ⟨thr, hthr.1, hthr.2, by rw [← heq], by rw [← heq]⟩
  · rintro ⟨thr, hmem, hpred, hdate, hlabel⟩
    refine ⟨thr, List.mem_filter.mpr ⟨hmem, hpred⟩, ?_⟩
    cases m
    simp only at hdate hlabel
    rw [hdate, hlabel]

theorem firedC_no_guard (left : List Nat) (total prevTot : Nat)
    (h : ∀ thr ∈ left, prevTot ≤ thr) :
    (left.filter (fun thr => decide (total ≥ thr))).filter
        (fun thr => decide (thr ≥ prevTot))
      = left.filter (fun thr => decide (total ≥ thr)) :=
  List.filter_eq_self.mpr (fun thr hthr =>
    decide_eq_true (h thr (List.mem_filter.mp hthr).1))

theorem star_disjunct_iff (s : Snapshot) (rest : List Snapshot)
    (left : List Nat) (m : Milestone) :
    (∃ thr ∈ left,
        starFirstDate (s :: rest) thr = some m.date ∧ m.label = starLabel thr)
      ↔ ((m ∈ (left.filter (fun thr => decide (s.stargazers ≥ thr))).map
            (fun thr => Milestone.mk s.date (starLabel thr))) ∨
          (∃ thr ∈ left.filter (fun thr => decide (¬ s.stargazers ≥ thr)),
            starFirstDate rest thr = some m.date ∧ m.label = starLabel thr)) := by
  rw [mem_fired_map_iff]
  constructor
  · rintro ⟨thr, hmem, hdate, hlabel⟩
    rw [starFirstDate_cons] at hdate
    by_cases hge : s.stargazers ≥ thr
    · rw [if_pos hge] at hdate
      exact Or.inl ⟨thr, hmem, decide_eq_true hge,
        (Option.some_inj.mp hdate).symm, hlabel⟩
    · rw [if_neg hge] at hdate
      exact Or.inr ⟨thr,
        List.mem_filter.mpr ⟨hmem, decide_eq_true hge⟩, hdate, hlabel⟩
  · rintro (⟨thr, hmem, hpred, hdate, hlabel⟩ | ⟨thr, hmem, hdate, hlabel⟩)
    · refine ⟨thr, hmem, ?_, hlabel⟩
      rw [starFirstDate_cons, if_pos (of_decide_eq_true hpred), hdate]
    · rw [List.mem_filter] at hmem
      refine ⟨thr, hmem.1, ?_, hlabel⟩
      rw [starFirstDate_cons, if_neg (of_decide_eq_true hmem.2), hdate]

theorem repo_disjunct_iff (s : Snapshot) (rest : List Snapshot)
    (left : List Nat) (m : Milestone) :
    (∃ thr ∈ left,
        repoFirstDate (s :: rest) thr = some m.date ∧ m.label = repoLabel thr)
      ↔ ((m ∈ (left.filter (fun thr => decide (s.repo_count ≥ thr))).map
            (fun thr => Milestone.mk s.date (repoLabel thr))) ∨
          (∃ thr ∈ left.filter (fun thr => decide (¬ s.repo_count ≥ thr)),
            repoFirstDate rest thr = some m.date ∧ m.label = repoLabel thr)) := by
  rw [mem_fired_map_iff]
  constructor
  · rintro ⟨thr, hmem, hdate, hlabel⟩
    rw [repoFirstDate_cons] at hdate
    by_cases hge : s.repo_count ≥ thr
    · rw [if_pos hge] at hdate
      exact Or.inl ⟨thr, hmem, decide_eq_true hge,
        (Option.some_inj.mp hdate).symm, hlabel⟩
    · rw [if_neg hge] at hdate
      exact Or.inr ⟨thr,
        List.mem_filter.mpr ⟨hmem, decide_eq_true hge⟩, hdate, hlabel⟩
  · rintro (⟨thr, hmem, hpred, hdate, hlabel⟩ | ⟨thr, hmem, hdate, hlabel⟩)
    · refine ⟨thr, hmem, ?_, hlabel⟩
      rw [repoFirstDate_cons, if_pos (of_decide_eq_true hpred), hdate]
    · rw [List.mem_filter] at hmem
      refine ⟨thr, hmem.1, ?_, hlabel⟩
      rw [repoFirstDate_cons, if_neg (of_decide_eq_true hmem.2), hdate]

theorem contrib_disjunct_iff (s : Snapshot) (rest : List Snapshot)
    (cum : List (String × Nat)) (left : List Nat) (m : Milestone) :
    (∃ thr ∈ left,
        contribFirstDate cum thr (s :: rest) = some m.date ∧
          m.label = contribLabel thr)
      ↔ ((m ∈ (left.filter (fun thr =>
            decide (cumTotal (updateCum cum s.contributions_by_year) ≥ thr))).map
            (fun thr => Milestone.mk s.date (contribLabel thr))) ∨
          (∃ thr ∈ left.filter (fun thr =>
              decide (¬ cumTotal (updateCum cum s.contributions_by_year) ≥ thr)),
            contribFirstDate (updateCum cum s.contributions_by_year) thr rest
              = some m.date ∧ m.label = contribLabel thr)) := by
  rw [mem_fired_map_iff]
  constructor
  · rintro ⟨thr, hmem, hdate, hlabel⟩
    rw [contribFirstDate] at hdate
    by_cases hge : cumTotal (updateCum cum s.contributions_by_year) ≥ thr
    · rw [if_pos hge] at hdate
      exact Or.inl ⟨thr, hmem, decide_eq_true hge,
        (Option.some_inj.mp hdate).symm, hlabel⟩
    · rw [if_neg hge] at hdate
      exact Or.inr ⟨thr,
        List.mem_filter.mpr ⟨hmem, decide_eq_true hge⟩, hdate, hlabel⟩
  · rintro (⟨thr, hmem, hpred, hdate, hlabel⟩ | ⟨thr, hmem, hdate, hlabel⟩)
    · refine ⟨thr, hmem, ?_, hlabel⟩
      rw [contribFirstDate, if_pos (of_decide_eq_true hpred), hdate]
    · rw [List.mem_filter] at hmem
      refine ⟨thr, hmem.1, ?_, hlabel⟩
      rw [contribFirstDate, if_neg (of_decide_eq_true hmem.2), hdate]

theorem msFold_mem_iff (l : List Snapshot) :
    ∀ st : MsState, st.prevTotal = cumTotal st.cum →
      (st.cum.map (fun p => p.1)).Nodup →
      (∀ thr ∈ st.contribLeft, cumTotal st.cum < thr) →
      ∀ m : Milestone,
        (m ∈ (l.foldl msStep st).ms ↔
          m ∈ st.ms ∨
          (∃ thr ∈ st.contribLeft,
            contribFirstDate st.cum thr l = some m.date ∧
              m.label = contribLabel thr) ∨
          (∃ thr ∈ st.starLeft,
            starFirstDate l thr = some m.date ∧ m.label = starLabel thr) ∨
          (∃ thr ∈ st.repoLeft,
            repoFirstDate l thr = some m.date ∧ m.label = repoLabel thr)) := by
  induction l with
  | nil =>
    intro st h1 h2 h3 m
    simp [contribFirstDate, starFirstDate, repoFirstDate]
  | cons s rest ih =>
    intro st h1 h2 h3 m
    rw [List.foldl_cons]
    have hguard : ∀ thr ∈ st.contribLeft, st.prevTotal ≤ thr := by
      intro thr hthr
      rw [h1]
      exact le_of_lt (h3 thr hthr)
    have hfiredC : ((st.contribLeft.filter (fun thr =>
          decide (cumTotal (updateCum st.cum s.contributions_by_year) ≥ thr))).filter
            (fun thr => decide (thr ≥ st.prevTotal)))
        = st.contribLeft.filter (fun thr =>
            decide (cumTotal (updateCum st.cum s.contributions_by_year) ≥ thr)) :=
      firedC_no_guard _ _ _ hguard
    have h1' : (msStep st s).prevTotal = cumTotal (msStep st s).cum := rfl
    have h2' : ((msStep st s).cum.map (fun p => p.1)).Nodup :=
      updateCum_keys_nodup s.contributions_by_year st.cum h2
    have h3' : ∀ thr ∈ (msStep st s).contribLeft,
        cumTotal (msStep st s).cum < thr := by
      intro thr hthr
      have hthr2 : thr ∈ st.contribLeft.filter (fun thr =>
          decide (¬ cumTotal (updateCum st.cum s.contributions_by_year) ≥ thr)) :=
        hthr
      exact not_le.mp (of_decide_eq_true (List.mem_filter.mp hthr2).2)
    rw [ih (msStep st s) h1' h2' h3' m]
    rw [star_disjunct_iff, repo_disjunct_iff, contrib_disjunct_iff]
    simp only [msStep]
    rw [hfiredC]
    simp only [List.mem_append]
    itauto

theorem dedupByLabel_subset (l : List Milestone) :
    ∀ (seen : List String) (m : Milestone), m ∈ dedupByLabel l seen → m ∈ l := by
  induction l with
  | nil => intro seen m hm; simp [dedupByLabel] at hm
  | cons a rest ih =>
    intro seen m hm
    rw [dedupByLabel] at hm
    split at hm
    · exact List.mem_cons_of_mem a (ih _ m hm)
    · rcases List.mem_cons.mp hm with h | h
      · exact h ▸ List.mem_cons_self a rest
      · exact List.mem_cons_of_mem a (ih _ m h)

theorem dedupByLabel_labels_nodup (l : List Milestone) :
    ∀ seen : List String,
      ((dedupByLabel l seen).map (fun m => m.label)).Nodup ∧
      (∀ m ∈ dedupByLabel l seen, m.label ∉ seen) := by
  induction l with
  | nil =>
    intro seen
    exact ⟨List.nodup_nil, by intro m hm; simp [dedupByLabel] at hm⟩
  | cons a rest ih =>
    intro seen
    rw [dedupByLabel]
    split
    case isTrue hseen => exact ih seen
    case isFalse hseen =>
      obtain ⟨hnd, hnotin⟩ := ih (a.label :: seen)
      constructor
      · rw [List.map_cons, List.nodup_cons]
        refine ⟨fun hcontra => ?_, hnd⟩
        rw [List.mem_map] at hcontra
        obtain ⟨m, hm, hlab⟩ := hcontra
        exact (hnotin m hm) (hlab ▸ List.mem_cons_self _ _)
      · intro m hm
        rcases List.mem_cons.mp hm with rfl | h
        · exact hseen
        · exact fun hc => hnotin m h (List.mem_cons_of_mem _ hc)

theorem starLabel_inj_on :
    ∀ a ∈ STAR_THRESHOLDS, ∀ b ∈ STAR_THRESHOLDS,
      starLabel a = starLabel b → a = b := by decide

theorem contribLabel_inj_on :
    ∀ a ∈ CONTRIB_THRESHOLDS, ∀ b ∈ CONTRIB_THRESHOLDS,
      contribLabel a = contribLabel b → a = b := by decide

theorem repoLabel_inj_on :
    ∀ a ∈ REPO_THRESHOLDS, ∀ b ∈ REPO_THRESHOLDS,
      repoLabel a = repoLabel b → a = b := by decide

theorem starLabel_ne_contribLabel :
    ∀ a ∈ STAR_THRESHOLDS, ∀ b ∈ CONTRIB_THRESHOLDS,
      starLabel a ≠ contribLabel b := by decide

theorem starLabel_ne_repoLabel :
    ∀ a ∈ STAR_THRESHOLDS, ∀ b ∈ REPO_THRESHOLDS,
      starLabel a ≠ repoLabel b := by decide

theorem contribLabel_ne_starLabel :
    ∀ a ∈ CONTRIB_THRESHOLDS, ∀ b ∈ STAR_THRESHOLDS,
      contribLabel a ≠ starLabel b := by decide

theorem contribLabel_ne_repoLabel :
    ∀ a ∈ CONTRIB_THRESHOLDS, ∀ b ∈ REPO_THRESHOLDS,
      contribLabel a ≠ repoLabel b := by decide

theorem repoLabel_ne_contribLabel :
    ∀ a ∈ REPO_THRESHOLDS, ∀ b ∈ CONTRIB_THRESHOLDS,
      repoLabel a ≠ contribLabel b := by decide

theorem repoLabel_ne_starLabel :
    ∀ a ∈ REPO_THRESHOLDS, ∀ b ∈ STAR_THRESHOLDS,
      repoLabel a ≠ starLabel b := by decide

/-- CLAIM C9.  Milestone deduplication: every threshold label appears at most
once in the milestone list, and a recorded milestone for a contribution, star
or repo-count threshold carries the date of the first snapshot (in
chronological order) at which that threshold was met or exceeded —
contributions measured by the reconstructed per-year-maximum total. -/
theorem c9_milestone_dedup_first_crossing (history : List Snapshot) :
    (((generate_milestones history).map (fun m => m.label)).Nodup) ∧
    (∀ (d : String) (thr : Nat), thr ∈ CONTRIB_THRESHOLDS →
      Milestone.mk d (contribLabel thr) ∈ generate_milestones history →
      contribFirstDate [] thr (sortByDate history) = some d) ∧
    (∀ (d : String) (thr : Nat), thr ∈ STAR_THRESHOLDS →
      Milestone.mk d (starLabel thr) ∈ generate_milestones history →
      starFirstDate (sortByDate history) thr = some d) ∧
    (∀ (d : String) (thr : Nat), thr ∈ REPO_THRESHOLDS →
      Milestone.mk d (repoLabel thr) ∈ generate_milestones history →
      repoFirstDate (sortByDate history) thr = some d) := by
  have hinit1 : msInit.prevTotal = cumTotal msInit.cum := rfl
  have hinit2 : (msInit.cum.map (fun p => p.1)).Nodup := List.nodup_nil
  have hinit3 : ∀ t ∈ msInit.contribLeft, cumTotal msInit.cum < t := by decide
  have hcontribPerm : ∀ t : Nat, t ∈ msInit.contribLeft → t ∈ CONTRIB_THRESHOLDS :=
    fun t ht => (List.perm_insertionSort _ _).mem_iff.mp ht
  have hstarPerm : ∀ t : Nat, t ∈ msInit.starLeft → t ∈ STAR_THRESHOLDS :=
    fun t ht => (List.perm_insertionSort _ _).mem_iff.mp ht
  have hrepoPerm : ∀ t : Nat, t ∈ msInit.repoLeft → t ∈ REPO_THRESHOLDS :=
    fun t ht => (List.perm_insertionSort _ _).mem_iff.mp ht
  refine ⟨(dedupByLabel_labels_nodup _ []).1, ?_, ?_, ?_⟩
  · intro d thr hthr hmem
    have hmem2 : Milestone.mk d (contribLabel thr)
        ∈ ((sortByDate history).foldl msStep msInit).ms :=
      dedupByLabel_subset _ [] _ hmem
    rw [msFold_mem_iff (sortByDate history) msInit hinit1 hinit2 hinit3] at hmem2
    rcases hmem2 with h | h | h | h
    · simp [msInit] at h
    · obtain ⟨t, ht, hdate, hlab⟩ := h
      have : thr = t := contribLabel_inj_on thr hthr t (hcontribPerm t ht) hlab
      subst this
      exact hdate
    · obtain ⟨t, ht, _, hlab⟩ := h
      exact absurd hlab (contribLabel_ne_starLabel thr hthr t (hstarPerm t ht))
    · obtain ⟨t, ht, _, hlab⟩ := h
      exact absurd hlab (contribLabel_ne_repoLabel thr hthr t (hrepoPerm t ht))
  · intro d thr hthr hmem
    have hmem2 : Milestone.mk d (starLabel thr)
        ∈ ((sortByDate history).foldl msStep msInit).ms :=
      dedupByLabel_subset _ [] _ hmem
    rw [msFold_mem_iff (sortByDate history) msInit hinit1 hinit2 hinit3] at hmem2
    rcases hmem2 with h | h | h | h
    · simp [msInit] at h
    · obtain ⟨t, ht, _, hlab⟩ := h
      exact absurd hlab (starLabel_ne_contribLabel thr hthr t (hcontribPerm t ht))
    · obtain ⟨t, ht, hdate, hlab⟩ := h
      have : thr = t := starLabel_inj_on thr hthr t (hstarPerm t ht) hlab
      subst this
      exact hdate
    · obtain ⟨t, ht, _, hlab⟩ := h
      exact absurd hlab (starLabel_ne_repoLabel thr hthr t (hrepoPerm t ht))
  · intro d thr hthr hmem
    have hmem2 : Milestone.mk d (repoLabel thr)
        ∈ ((sortByDate history).foldl msStep msInit).ms :=
      dedupByLabel_subset _ [] _ hmem
    rw [msFold_mem_iff (sortByDate history) msInit hinit1 hinit2 hinit3] at hmem2
    rcases hmem2 with h | h | h | h
    · simp [msInit] at h
    · obtain ⟨t, ht, _, hlab⟩ := h
      exact absurd hlab (repoLabel_ne_contribLabel thr hthr t (hcontribPerm t ht))
    · obtain ⟨t, ht, _, hlab⟩ := h
      exact absurd hlab (repoLabel_ne_starLabel thr hthr t (hstarPerm t ht))
    · obtain ⟨t, ht, hdate, hlab⟩ := h
      have : thr = t := repoLabel_inj_on thr hthr t (hrepoPerm t ht) hlab
      subst this
      exact hdate

/-- Witness for C9: a single snapshot with 5 stars records the "1 Stars"
milestone; it carries that snapshot's date, the first (and only) crossing. -/
theorem c9_milestone_dedup_first_crossing_witness :
    (1 ∈ STAR_THRESHOLDS) ∧
    (Milestone.mk "2024-01-01" (starLabel 1)
      ∈ generate_milestones [{ date := "2024-01-01", stargazers := 5 }]) ∧
    starFirstDate (sortByDate [{ date := "2024-01-01", stargazers := 5 }]) 1
      = some "2024-01-01" := by
  have h1 : (1 : Nat) ∈ STAR_THRESHOLDS := by decide
  have h2 : Milestone.mk "2024-01-01" (starLabel 1)
      ∈ generate_milestones [{ date := "2024-01-01", stargazers := 5 }] := by
    decide
  exact ⟨h1, h2,
    (c9_milestone_dedup_first_crossing _).2.2.1 "2024-01-01" 1 h1 h2⟩
